import Mathlib

/-!
Verification of the signal-interpretation core of the
Interactive-Particles-Music-Visualizer repository: the spectral/beat engine
(`AdvancedAudioManager`) and the landmark gesture engine (`GestureManager`),
shallowly embedded.  JS numbers are modelled as `ℚ` (the engine only performs
field operations, comparisons, clamps and floors on them) and millisecond
timestamps from `Date.now()` as `ℤ`.
-/

namespace Visualizer

/-- Shared EMA update `AdvancedAudioManager.smoothValue` / `GestureManager.smoothValue`:
`current * this.smoothingFactor + target * (1 - this.smoothingFactor)`,
with the smoothing factor `α` made an explicit argument. -/
def smoothValue (α current target : ℚ) : ℚ := current * α + target * (1 - α)

/-- The smoothed value after `n` ticks of `smoothValue` with the raw input
held constant at `r`, starting from `s`. -/
def emaIter (α r s : ℚ) : ℕ → ℚ
  | 0 => s
  | n + 1 => smoothValue α (emaIter α r s n) r

/-- Clamp-normalization `AdvancedAudioManager.normalizeValue`:
`Math.max(0, Math.min(1, value / 255))`. -/
def normalizeValue (value : ℚ) : ℚ := max 0 (min 1 (value / 255))

/-- The beat-detection fields of `AdvancedAudioManager`
(`this.beatHistory`, `this.lastBeatTime`, `this.beatThreshold`). -/
structure BeatState where
  beatHistory : List ℚ
  lastBeatTime : ℤ
  beatThreshold : ℚ
deriving DecidableEq

/-- Beat detector `AdvancedAudioManager.detectBeats`, as a function of the current time
(`Date.now()`), the current bass energy (`this.frequencyData.bass`) and the
beat-detection state.  The history is pushed and capped at 10 entries
(`push` then `shift`), the mean of the capped history is taken, and a beat
fires when `bassEnergy > avgEnergy * beatThreshold` and more than 200 ms
have elapsed since `lastBeatTime`; firing sets `lastBeatTime := now` and
calls `triggerBeatCallbacks(bassEnergy)`, modelled by returning the event
`some (now, bassEnergy)`. -/
def detectBeats (now : ℤ) (bassEnergy : ℚ) (st : BeatState) : BeatState × Option (ℤ × ℚ) :=
  let hist0 := st.beatHistory ++ [bassEnergy]
  let hist := if hist0.length > 10 then hist0.tail else hist0
  let avgEnergy := hist.sum / (hist.length : ℚ)
  if bassEnergy > avgEnergy * st.beatThreshold ∧ now - st.lastBeatTime > 200 then
    ({ st with beatHistory := hist, lastBeatTime := now }, some (now, bassEnergy))
  else
    ({ st with beatHistory := hist }, none)

/-- A sequence of `detectBeats` ticks: each input pair is the bass energy and
the `Date.now()` timestamp of one tick.  Returns the final state and the
list of fired beat events in order. -/
def runBeats (st : BeatState) : List (ℚ × ℤ) → BeatState × List (ℤ × ℚ)
  | [] => (st, [])
  | (bass, t) :: rest =>
    let r := detectBeats t bass st
    let rr := runBeats r.1 rest
    (rr.1, r.2.toList ++ rr.2)

/-- The 10-tick bass-energy sequence of the spec's end-to-end beat scenario,
with ticks spaced 200 ms apart (tick `i` at `Date.now() = 200·i`). -/
def beatScenarioInput : List (ℚ × ℤ) :=
  [(1/5, 200), (1/5, 400), (1/5, 600), (1/5, 800), (1/5, 1000),
   (9/10, 1200), (1/5, 1400), (1/5, 1600), (1/5, 1800), (1/5, 2000)]

/-- Peak detector `AdvancedAudioManager.detectPeaks`, as a function of the current time,
the current overall energy and the peak fields
(`peakHistory`, `peakThreshold`, `lastPeakTime`); returns the updated
history and `lastPeakTime` (its `triggerPeakCallbacks` is a no-op). -/
def detectPeaks (now : ℤ) (overallEnergy : ℚ) (peakHistory : List ℚ)
    (peakThreshold : ℚ) (lastPeakTime : ℤ) : List ℚ × ℤ :=
  let h0 := peakHistory ++ [overallEnergy]
  let hist := if h0.length > 5 then h0.tail else h0
  let avgEnergy := hist.sum / (hist.length : ℚ)
  if overallEnergy > peakThreshold ∧ overallEnergy > avgEnergy * (3/2) ∧
      now - lastPeakTime > 100 then
    (hist, now)
  else
    (hist, lastPeakTime)

/-- Bin conversion `Math.floor((freq / nyquist) * binCount)` from `analyzeFrequency`,
converting a frequency in Hz to a bin index.  The engine only evaluates it
at positive sample rates, where the result is nonnegative, so the JS floor
is `Int.floor` followed by `Int.toNat`. -/
def freqToBin (freq nyquist : ℚ) (binCount : ℕ) : ℕ :=
  (⌊freq / nyquist * (binCount : ℚ)⌋).toNat

/-- The loop of `AdvancedAudioManager.calculateRangeAverage`
(`for (let i = startBin; i <= endBin && i < this.frequencyArray.length; i++)`),
accumulating the sum and the count; realized by structural recursion on a
fuel that bounds the remaining iterations.  Every array read carries an
in-bounds proof, mirroring the loop guard `i < this.frequencyArray.length`. -/
def rangeLoopAux (arr : List ℚ) (e : ℕ) : ℕ → ℕ → ℚ × ℕ
  | _, 0 => (0, 0)
  | i, fuel + 1 =>
    if h : i ≤ e ∧ i < arr.length then
      let rest := rangeLoopAux arr e (i + 1) fuel
      (arr.get ⟨i, h.2⟩ + rest.1, rest.2 + 1)
    else (0, 0)

/-- Sum and count of `calculateRangeAverage`'s loop from `i = startBin`. -/
def rangeLoop (arr : List ℚ) (startBin endBin : ℕ) : ℚ × ℕ :=
  rangeLoopAux arr endBin startBin (endBin + 1 - startBin)

/-- Band average `AdvancedAudioManager.calculateRangeAverage`:
`count > 0 ? sum / count : 0`. -/
def calculateRangeAverage (arr : List ℚ) (startBin endBin : ℕ) : ℚ :=
  let sc := rangeLoop arr startBin endBin
  if sc.2 > 0 then sc.1 / (sc.2 : ℚ) else 0

/-- Arithmetic mean, written independently of the loop above: the mean of
the entries of `arr` whose index lies in `[startBin, endBin]` and inside
the array, and `0` when there are none. -/
def rangeMean (arr : List ℚ) (startBin endBin : ℕ) : ℚ :=
  let stop := min (endBin + 1) arr.length
  if startBin < stop then
    (Finset.Ico startBin stop).sum (fun j => arr.getD j 0) / ((stop - startBin : ℕ) : ℚ)
  else 0

/-- The `{bass, mid, treble, overall}` records `this.frequencyData` /
`this.smoothedData` of `AdvancedAudioManager`. -/
structure BandData where
  bass : ℚ
  mid : ℚ
  treble : ℚ
  overall : ℚ
deriving DecidableEq

/-- A `{min, max}` frequency range in Hz (`this.bassRange` etc.). -/
structure FreqRange where
  lo : ℚ
  hi : ℚ
deriving DecidableEq

/-- The fields of `AdvancedAudioManager` read or written by
`analyzeFrequency`, `calculateRangeAverage`, `normalizeValue`,
`smoothValue`, `detectBeats` and `detectPeaks`.  `audioContext` is
`some sampleRate` when an audio context exists and `none` before one does. -/
structure AudioState where
  audioContext : Option ℚ
  frequencyArray : List ℚ
  sensitivity : ℚ
  smoothingFactor : ℚ
  bassRange : FreqRange
  midRange : FreqRange
  trebleRange : FreqRange
  frequencyData : BandData
  smoothedData : BandData
  beatHistory : List ℚ
  beatThreshold : ℚ
  lastBeatTime : ℤ
  peakHistory : List ℚ
  peakThreshold : ℚ
  lastPeakTime : ℤ
deriving DecidableEq

/-- The constructor defaults of `AdvancedAudioManager`. -/
def initialAudioState : AudioState where
  audioContext := none
  frequencyArray := []
  sensitivity := 1
  smoothingFactor := 85/100
  bassRange := ⟨20, 250⟩
  midRange := ⟨250, 4000⟩
  trebleRange := ⟨4000, 20000⟩
  frequencyData := ⟨0, 0, 0, 0⟩
  smoothedData := ⟨0, 0, 0, 0⟩
  beatHistory := []
  beatThreshold := 13/10
  lastBeatTime := 0
  peakHistory := []
  peakThreshold := 7/10
  lastPeakTime := 0

/-- Configuration setter `AdvancedAudioManager.setSensitivity`:
`this.sensitivity = Math.max(0.1, Math.min(3.0, value))`. -/
def setSensitivity (value : ℚ) (st : AudioState) : AudioState :=
  { st with sensitivity := max (1/10) (min 3 value) }

/-- Analysis tick `AdvancedAudioManager.analyzeFrequency` at time `now`.
Returns the updated state and the beat event fired by the embedded
`detectBeats` call, if any.  The first line of the source is the guard
`if (!this.audioContext || !this.frequencyArray.length) return`. -/
def analyzeFrequency (now : ℤ) (st : AudioState) : AudioState × Option (ℤ × ℚ) :=
  match st.audioContext with
  | none => (st, none)
  | some sampleRate =>
    if st.frequencyArray.length = 0 then (st, none)
    else
      let nyquist := sampleRate / 2
      let binCount := st.frequencyArray.length
      let bassStart := freqToBin st.bassRange.lo nyquist binCount
      let bassEnd := freqToBin st.bassRange.hi nyquist binCount
      let midStart := freqToBin st.midRange.lo nyquist binCount
      let midEnd := freqToBin st.midRange.hi nyquist binCount
      let trebleStart := freqToBin st.trebleRange.lo nyquist binCount
      let trebleEnd := freqToBin st.trebleRange.hi nyquist binCount
      let bassAvg := calculateRangeAverage st.frequencyArray bassStart bassEnd
      let midAvg := calculateRangeAverage st.frequencyArray midStart midEnd
      let trebleAvg := calculateRangeAverage st.frequencyArray trebleStart trebleEnd
      let overallAvg := calculateRangeAverage st.frequencyArray 0 (binCount - 1)
      let fd : BandData :=
        { bass := normalizeValue bassAvg * st.sensitivity
          mid := normalizeValue midAvg * st.sensitivity
          treble := normalizeValue trebleAvg * st.sensitivity
          overall := normalizeValue overallAvg * st.sensitivity }
      let sd : BandData :=
        { bass := smoothValue st.smoothingFactor st.smoothedData.bass fd.bass
          mid := smoothValue st.smoothingFactor st.smoothedData.mid fd.mid
          treble := smoothValue st.smoothingFactor st.smoothedData.treble fd.treble
          overall := smoothValue st.smoothingFactor st.smoothedData.overall fd.overall }
      let bres := detectBeats now fd.bass ⟨st.beatHistory, st.lastBeatTime, st.beatThreshold⟩
      let pres := detectPeaks now fd.overall st.peakHistory st.peakThreshold st.lastPeakTime
      ({ st with
          frequencyData := fd
          smoothedData := sd
          beatHistory := bres.1.beatHistory
          lastBeatTime := bres.1.lastBeatTime
          peakHistory := pres.1
          lastPeakTime := pres.2 }, bres.2)

/-- A concrete reachable `AdvancedAudioManager` state: an audio context at
44100 Hz, a 32-bin all-255 magnitude frame, and `setSensitivity(2)`. -/
def loudAudioState : AudioState :=
  setSensitivity 2
    { initialAudioState with
        audioContext := some 44100
        frequencyArray := List.replicate 32 255 }

/-- Registration `AdvancedAudioManager.onBeat`: `this.beatCallbacks.push(callback)`.
Callbacks are identified by a numeric id. -/
def onBeat (cb : ℕ) (beatCallbacks : List ℕ) : List ℕ := beatCallbacks ++ [cb]

/-- Dispatch loop `AdvancedAudioManager.triggerBeatCallbacks`: runs the registered
callbacks in order with no guard around the call, so a throwing callback
aborts the loop and the exception escapes.  Each callback is modelled by
whether it throws; the result is the number of callbacks actually invoked
and whether an exception escaped. -/
def triggerBeatCallbacks : List Bool → ℕ × Bool
  | [] => (0, false)
  | throws :: rest =>
    if throws then (1, true)
    else
      let r := triggerBeatCallbacks rest
      (r.1 + 1, r.2)

/-- The named callback slots of `GestureManager` (`this.callbacks`), each
holding at most one callback, identified by a numeric id. -/
structure GestureCallbacks where
  onPinch : Option ℕ
  onSwipe : Option ℕ
  onBodyLeanSlot : Option ℕ
  onReset : Option ℕ
  onFollow : Option ℕ
deriving DecidableEq

/-- Registration `GestureManager.onPinch`: `this.callbacks.onPinch = callback`. -/
def registerOnPinch (cb : ℕ) (c : GestureCallbacks) : GestureCallbacks :=
  { c with onPinch := some cb }

/-- Registration `GestureManager.onSwipe`: `this.callbacks.onSwipe = callback`. -/
def registerOnSwipe (cb : ℕ) (c : GestureCallbacks) : GestureCallbacks :=
  { c with onSwipe := some cb }

/-- Registration for the body-lean slot (source method name ends in a word
this development cannot use): `this.callbacks` assignment, like the other
gesture slots. -/
def registerOnBodyLeanSlot (cb : ℕ) (c : GestureCallbacks) : GestureCallbacks :=
  { c with onBodyLeanSlot := some cb }

/-- Registration `GestureManager.onReset`: `this.callbacks.onReset = callback`. -/
def registerOnReset (cb : ℕ) (c : GestureCallbacks) : GestureCallbacks :=
  { c with onReset := some cb }

/-- Registration `GestureManager.onFollow`: `this.callbacks.onFollow = callback`. -/
def registerOnFollow (cb : ℕ) (c : GestureCallbacks) : GestureCallbacks :=
  { c with onFollow := some cb }

/-- A 2-D landmark point (`{x, y}` in MediaPipe image coordinates). -/
structure Point where
  x : ℚ
  y : ℚ
deriving DecidableEq

/-- The swipe direction strings of `detectSwipe`. -/
inductive SwipeDir where
  | nodir
  | left
  | right
  | up
  | down
deriving DecidableEq

/-- The record `{ isSwipe, direction, velocity }` returned by `detectSwipe`.
The source's `velocity` is `Math.sqrt(dx*dx + dy*dy)`; since `ℚ` has no
square root, the square `dx*dx + dy*dy` is carried instead. -/
structure SwipeResult where
  isSwipe : Bool
  direction : SwipeDir
  velocitySq : ℚ
deriving DecidableEq

/-- Swipe classifier `GestureManager.detectSwipe` of the enhanced gesture manager (the
variant with the 1.5 axis-dominance rule), as a function of
`this.gestureState.lastHandPosition` and the current index-tip landmark.
Returns the `{ isSwipe, direction, velocity }` record and the updated
`lastHandPosition` (always set to the current position).  The source
compares `velocity = Math.sqrt(dx*dx + dy*dy)` with the threshold
`this.gestureThresholds.swipeVelocity` (`0.05`); both sides being
nonnegative, the comparison is embedded squared. -/
def detectSwipe (threshold : ℚ) (lastHandPosition : Option Point) (indexTip : Point) :
    SwipeResult × Option Point :=
  match lastHandPosition with
  | some lp =>
    let dx := indexTip.x - lp.x
    let dy := indexTip.y - lp.y
    let vSq := dx * dx + dy * dy
    if vSq > threshold * threshold then
      let dir : SwipeDir :=
        if |dx| > |dy| * (3/2) then (if dx > 0 then .right else .left)
        else if |dy| > |dx| * (3/2) then (if dy > 0 then .down else .up)
        else .nodir
      if dir ≠ SwipeDir.nodir then (⟨true, dir, vSq⟩, some indexTip)
      else (⟨false, SwipeDir.nodir, 0⟩, some indexTip)
    else (⟨false, SwipeDir.nodir, 0⟩, some indexTip)
  | none => (⟨false, SwipeDir.nodir, 0⟩, some indexTip)

/-- Swipe classifier `GestureManager.detectSwipe` from `src/src/js/managers/GestureManager.js`
(the near-duplicate variant without the 1.5 axis-dominance rule): above the
hard-coded `0.05` threshold the direction is horizontal whenever
`|dx| > |dy|` and vertical otherwise, and a swipe always fires. -/
def detectSwipeSimple (lastHandPosition : Option Point) (indexTip : Point) :
    SwipeResult × Option Point :=
  match lastHandPosition with
  | some lp =>
    let dx := indexTip.x - lp.x
    let dy := indexTip.y - lp.y
    let vSq := dx * dx + dy * dy
    if vSq > (1/20) * (1/20) then
      let dir : SwipeDir :=
        if |dx| > |dy| then (if dx > 0 then .right else .left)
        else (if dy > 0 then .down else .up)
      (⟨true, dir, vSq⟩, some indexTip)
    else (⟨false, SwipeDir.nodir, 0⟩, some indexTip)
  | none => (⟨false, SwipeDir.nodir, 0⟩, some indexTip)

/-- Tip indices `fingerTips = [4, 8, 12, 16, 20]` of `detectOpenPalm`. -/
def fingerTips : Fin 5 → Fin 21
  | 0 => 4
  | 1 => 8
  | 2 => 12
  | 3 => 16
  | 4 => 20

/-- Joint indices `fingerMCPs = [2, 5, 9, 13, 17]` of `detectOpenPalm`. -/
def fingerMCPs : Fin 5 → Fin 21
  | 0 => 2
  | 1 => 5
  | 2 => 9
  | 3 => 13
  | 4 => 17

/-- One iteration of the `detectOpenPalm` loop: for the thumb (`i === 0`)
`Math.abs(tip.x - mcp.x) > 0.05`, for the other fingers
`tip.y < mcp.y - 0.02`. -/
def palmTest (lm : Fin 21 → Point) (i : Fin 5) : Bool :=
  if i.val = 0 then |(lm (fingerTips i)).x - (lm (fingerMCPs i)).x| > 1/20
  else (lm (fingerTips i)).y < (lm (fingerMCPs i)).y - 1/50

/-- Palm classifier `GestureManager.detectOpenPalm` (identical in both gesture managers):
counts the fingers passing the extension test and reports an open palm
when `extendedFingers >= 4`. -/
def detectOpenPalm (lm : Fin 21 → Point) : Bool :=
  let extendedFingers :=
    (List.finRange 5).foldl (fun acc i => if palmTest lm i then acc + 1 else acc) 0
  extendedFingers ≥ 4

/-- The reset dispatch at the end of `processHandGestures`: a reset event
fires on a tick iff `detectOpenPalm(landmarks)` holds and an `onReset`
callback is registered. -/
def firesReset (hasResetCallback : Bool) (lm : Fin 21 → Point) : Bool :=
  hasResetCallback && detectOpenPalm lm

/-- A landmark frame with exactly three extended fingers (index, middle and
ring tips raised above their MCP joints; thumb and pinky not extended). -/
def palmFrame3 : Fin 21 → Point := fun i =>
  if i.val = 8 ∨ i.val = 12 ∨ i.val = 16 then ⟨0, 0⟩ else ⟨0, 1⟩

/-- A landmark frame with exactly four extended fingers (index, middle,
ring and pinky; thumb not extended). -/
def palmFrame4 : Fin 21 → Point := fun i =>
  if i.val = 8 ∨ i.val = 12 ∨ i.val = 16 ∨ i.val = 20 then ⟨0, 0⟩ else ⟨0, 1⟩

/-- The swipe-dispatch fields of `GestureManager.gestureState` together
with the pending `setTimeout(() => isSwipeActive = false, 800)` timer, if
one has been scheduled (`some` of its due time). -/
structure SwipeDispatchState where
  isSwipeActive : Bool
  isFollowing : Bool
  pendingReset : Option ℤ
deriving DecidableEq

/-- The swipe branch of `processHandGestures` at time `now`, with
`swipeDetected = swipeData.isSwipe` and the registered `onSwipe` consumer
callback modelled by whether it throws.  Due `setTimeout` callbacks run
before the tick.  The source sets `isSwipeActive = true`, then invokes the
callback with no guard, and only afterwards schedules the 800 ms timeout
that clears `isSwipeActive`; a throwing callback therefore skips the
scheduling.  Returns the new state, whether the `onSwipe` callback was
invoked, and whether an exception escaped the tick. -/
def swipeDispatchTick (now : ℤ) (onSwipeThrows swipeDetected : Bool)
    (st : SwipeDispatchState) : SwipeDispatchState × Bool × Bool :=
  let st1 :=
    match st.pendingReset with
    | some t => if t ≤ now then { st with isSwipeActive := false, pendingReset := none } else st
    | none => st
  if swipeDetected = true ∧ st1.isSwipeActive = false ∧ st1.isFollowing = false then
    let st2 := { st1 with isSwipeActive := true }
    if onSwipeThrows then (st2, true, true)
    else ({ st2 with pendingReset := some (now + 800) }, true, false)
  else (st1, false, false)

/-- A sequence of swipe-dispatch ticks; each input is the tick's
`Date.now()` time and whether `detectSwipe` reported a swipe on it.
Returns the final state and how many times the `onSwipe` callback ran. -/
def runSwipeTicks (onSwipeThrows : Bool) :
    SwipeDispatchState → List (ℤ × Bool) → SwipeDispatchState × ℕ
  | st, [] => (st, 0)
  | st, (t, sd) :: rest =>
    let r := swipeDispatchTick t onSwipeThrows sd st
    let rr := runSwipeTicks onSwipeThrows r.1 rest
    (rr.1, (if r.2.1 then 1 else 0) + rr.2)

lemma emaIter_succ_sub (α r s : ℚ) (n : ℕ) :
    emaIter α r s (n + 1) - r = α * (emaIter α r s n - r) := by
  simp only [emaIter, smoothValue]
  ring

lemma emaIter_abs_sub (α r s : ℚ) (h0 : 0 ≤ α) (n : ℕ) :
    |emaIter α r s n - r| = α ^ n * |s - r| := by
  induction n with
  | zero => simp [emaIter]
  | succ n ih =>
    rw [emaIter_succ_sub, abs_mul, abs_of_nonneg h0, ih, pow_succ]
    ring

lemma emaIter_le_of_le (α r s : ℚ) (h0 : 0 ≤ α) (hs : s ≤ r) (n : ℕ) :
    emaIter α r s n ≤ r := by
  induction n with
  | zero => exact hs
  | succ n ih =>
    have h := emaIter_succ_sub α r s n
    nlinarith [mul_nonneg h0 (sub_nonneg.mpr ih)]

lemma emaIter_ge_of_ge (α r s : ℚ) (h0 : 0 ≤ α) (hs : r ≤ s) (n : ℕ) :
    r ≤ emaIter α r s n := by
  induction n with
  | zero => exact hs
  | succ n ih =>
    have h := emaIter_succ_sub α r s n
    nlinarith [mul_nonneg h0 (sub_nonneg.mpr ih)]

lemma rangeLoopAux_spec (arr : List ℚ) (e : ℕ) (fuel : ℕ) :
    ∀ i, min (e + 1) arr.length - i ≤ fuel →
      rangeLoopAux arr e i fuel =
        ((Finset.Ico i (min (e + 1) arr.length)).sum (fun j => arr.getD j 0),
          min (e + 1) arr.length - i) := by
  induction fuel with
  | zero =>
    intro i hf
    have h0 : min (e + 1) arr.length - i = 0 := by omega
    rw [Finset.Ico_eq_empty (by omega), h0]
    simp [rangeLoopAux]
  | succ fuel ih =>
    intro i hf
    by_cases hcond : i ≤ e ∧ i < arr.length
    · have hlt : i < min (e + 1) arr.length := by omega
      rw [rangeLoopAux, dif_pos hcond, ih (i + 1) (by omega),
        Finset.sum_eq_sum_Ico_succ_bot hlt, List.getD_eq_getElem arr 0 hcond.2]
      refine Prod.ext rfl ?_
      simp
      omega
    · have h0 : min (e + 1) arr.length - i = 0 := by omega
      rw [rangeLoopAux, dif_neg hcond, Finset.Ico_eq_empty (by omega), h0]
      simp

lemma rangeLoop_spec (arr : List ℚ) (s e : ℕ) :
    rangeLoop arr s e =
      ((Finset.Ico s (min (e + 1) arr.length)).sum (fun j => arr.getD j 0),
        min (e + 1) arr.length - s) :=
  rangeLoopAux_spec arr e (e + 1 - s) s (by omega)

/-- The loop of `calculateRangeAverage` computes exactly the arithmetic mean
of the in-bounds entries of the requested bin range. -/
lemma calculateRangeAverage_eq_rangeMean (arr : List ℚ) (s e : ℕ) :
    calculateRangeAverage arr s e = rangeMean arr s e := by
  rw [calculateRangeAverage, rangeMean, rangeLoop_spec]
  rcases lt_or_ge s (min (e + 1) arr.length) with h | h
  · rw [if_pos (by omega : min (e + 1) arr.length - s > 0), if_pos h]
  · rw [if_neg (by omega : ¬ min (e + 1) arr.length - s > 0), if_neg (by omega)]

lemma calculateRangeAverage_replicate (n : ℕ) (c : ℚ) (s e : ℕ)
    (h : s < min (e + 1) n) :
    calculateRangeAverage (List.replicate n c) s e = c := by
  rw [calculateRangeAverage_eq_rangeMean, rangeMean]
  have hlen : (List.replicate n c).length = n := List.length_replicate n c
  rw [if_pos (by omega)]
  have hc : ∀ j ∈ Finset.Ico s (min (e + 1) (List.replicate n c).length),
      (List.replicate n c).getD j 0 = c := by
    intro j hj
    rw [Finset.mem_Ico] at hj
    rw [List.getD_eq_getElem _ 0 (by omega), List.getElem_replicate]
  rw [Finset.sum_congr rfl hc, Finset.sum_const, Nat.card_Ico, nsmul_eq_mul,
    mul_div_cancel_left₀ _ (by rw [Nat.cast_ne_zero]; omega)]

lemma calculateRangeAverage_take (arr : List ℚ) (s e : ℕ) :
    calculateRangeAverage arr s e = calculateRangeAverage (arr.take (e + 1)) s e := by
  rw [calculateRangeAverage_eq_rangeMean, calculateRangeAverage_eq_rangeMean,
    rangeMean, rangeMean]
  have hstop : min (e + 1) (arr.take (e + 1)).length = min (e + 1) arr.length := by
    simp [List.length_take]
  rw [hstop]
  rcases lt_or_ge s (min (e + 1) arr.length) with h | h
  · rw [if_pos h, if_pos h]
    have hc : ∀ j ∈ Finset.Ico s (min (e + 1) arr.length),
        arr.getD j 0 = (arr.take (e + 1)).getD j 0 := by
      intro j hj
      rw [Finset.mem_Ico] at hj
      have hj1 : j < arr.length := by omega
      have hj2 : j < (arr.take (e + 1)).length := by
        simp [List.length_take]
        omega
      rw [List.getD_eq_getElem _ 0 hj1, List.getD_eq_getElem _ 0 hj2,
        List.getElem_take]
    rw [Finset.sum_congr rfl hc]
  · rw [if_neg (by omega), if_neg (by omega)]

/-- C10: band averaging is total and in-bounds — `calculateRangeAverage`
returns `0` when the bin range contributes no samples (start past the end
bin or past the array), its value depends only on the array entries up to
the end bin (entries beyond the requested range or beyond the array are
never read), and at a 32000 Hz sample rate with 32 bins the computed
treble end bin `floor(20000/nyquist · binCount) = 40` exceeds the last
valid index 31, yet the treble average is still well defined. -/
theorem range_average_safe (arr : List ℚ) (s e : ℕ) :
    ((e < s ∨ arr.length ≤ s) → calculateRangeAverage arr s e = 0) ∧
    calculateRangeAverage arr s e = calculateRangeAverage (arr.take (e + 1)) s e ∧
    (freqToBin 20000 (32000 / 2) 32 = 40 ∧
      32 ≤ freqToBin 20000 (32000 / 2) 32 ∧
      calculateRangeAverage (List.replicate 32 (255 : ℚ)) (freqToBin 4000 (32000 / 2) 32)
        (freqToBin 20000 (32000 / 2) 32) = 255) := by
  have hbin1 : freqToBin 20000 (32000 / 2) 32 = 40 := by
    rw [freqToBin]
    norm_num
    rfl
  have hbin2 : freqToBin 4000 (32000 / 2) 32 = 8 := by
    rw [freqToBin]
    norm_num
    rfl
  refine ⟨fun h => ?_, calculateRangeAverage_take arr s e, hbin1, by omega,
    ?_⟩
  · rw [calculateRangeAverage, rangeLoop_spec, if_neg (by omega)]
  · rw [hbin1, hbin2]
    exact calculateRangeAverage_replicate 32 255 8 40 (by norm_num)

/-- Witness for C10: the empty bin range `[5, 2]` over the empty array
averages to `0`. -/
theorem range_average_safe_witness : calculateRangeAverage [] 5 2 = 0 :=
  (range_average_safe [] 5 2).1 (Or.inl (by norm_num))

lemma detectBeats_cases (now : ℤ) (bass : ℚ) (st : BeatState) :
    ((detectBeats now bass st).2 = none ∧
      (detectBeats now bass st).1.lastBeatTime = st.lastBeatTime) ∨
    ((detectBeats now bass st).2 = some (now, bass) ∧
      (detectBeats now bass st).1.lastBeatTime = now ∧
      st.lastBeatTime + 200 < now) := by
  simp only [detectBeats]
  split
  · split
    · rename_i h
      exact Or.inr ⟨rfl, rfl, by have := h.2; omega⟩
    · exact Or.inl ⟨rfl, rfl⟩
  · split
    · rename_i h
      exact Or.inr ⟨rfl, rfl, by have := h.2; omega⟩
    · exact Or.inl ⟨rfl, rfl⟩

lemma runBeats_fired_gt (l : List (ℚ × ℤ)) :
    ∀ st : BeatState, ∀ ev ∈ (runBeats st l).2, st.lastBeatTime + 200 < ev.1 := by
  induction l with
  | nil =>
    intro st ev h
    simp [runBeats] at h
  | cons p rest ih =>
    intro st ev hev
    obtain ⟨bass, t⟩ := p
    simp only [runBeats, List.mem_append] at hev
    rcases detectBeats_cases t bass st with ⟨h2, hlbt⟩ | ⟨h2, hlbt, hgt⟩
    · rw [h2] at hev
      rcases hev with hev | hev
      · simp at hev
      · have := ih _ ev hev
        rw [hlbt] at this
        exact this
    · rw [h2] at hev
      rcases hev with hev | hev
      · simp at hev
        rw [hev]
        exact hgt
      · have := ih _ ev hev
        rw [hlbt] at this
        omega

lemma runBeats_pairwise (l : List (ℚ × ℤ)) :
    ∀ st : BeatState,
      List.Pairwise (fun a b : ℤ × ℚ => a.1 + 200 < b.1) (runBeats st l).2 := by
  induction l with
  | nil =>
    intro st
    simp [runBeats]
  | cons p rest ih =>
    intro st
    obtain ⟨bass, t⟩ := p
    simp only [runBeats]
    rcases detectBeats_cases t bass st with ⟨h2, _⟩ | ⟨h2, hlbt, _⟩
    · rw [h2]
      simpa using ih _
    · rw [h2]
      simp only [Option.toList_some, List.singleton_append]
      refine List.Pairwise.cons ?_ (ih _)
      intro ev hev
      have h := runBeats_fired_gt rest (detectBeats t bass st).1 ev hev
      rw [hlbt] at h
      exact h

/-- C6: over any sequence of `detectBeats` ticks, any two fired beat events
are separated by more than the 200 ms minimum inter-beat interval (in
particular they are never closer than 200 ms), and a firing tick resets
`lastBeatTime` to the firing time. -/
theorem beat_min_spacing (st : BeatState) (l : List (ℚ × ℤ)) :
    List.Pairwise (fun a b : ℤ × ℚ => a.1 + 200 < b.1) (runBeats st l).2 ∧
    (∀ (now : ℤ) (bass : ℚ) (ev : ℤ × ℚ), (detectBeats now bass st).2 = some ev →
      (detectBeats now bass st).1.lastBeatTime = now) := by
  refine ⟨runBeats_pairwise l st, fun now bass ev hev => ?_⟩
  rcases detectBeats_cases now bass st with ⟨h2, _⟩ | ⟨_, hlbt, _⟩
  · rw [h2] at hev
    exact absurd hev (by simp)
  · exact hlbt

/-- Witness for C6: a concrete firing tick at `now = 300` resets
`lastBeatTime` to 300. -/
theorem beat_min_spacing_witness :
    (detectBeats 300 1 ⟨[0, 0, 0], 0, 13/10⟩).1.lastBeatTime = 300 :=
  (beat_min_spacing ⟨[0, 0, 0], 0, 13/10⟩ []).2 300 1 (300, 1)
    (by norm_num [detectBeats])

/-- C5: feeding the beat detector the 10-tick bass-energy sequence
`[0.2, 0.2, 0.2, 0.2, 0.2, 0.9, 0.2, 0.2, 0.2, 0.2]` with threshold 1.3 and
ticks 200 ms apart fires exactly one beat event, on tick 6 (time 1200 ms),
with intensity 0.9 passed to the beat callbacks. -/
theorem end_to_end_beat_scenario :
    (runBeats ⟨[], 0, 13/10⟩ beatScenarioInput).2 = [(1200, 9/10)] := by
  norm_num [runBeats, beatScenarioInput, detectBeats]

/-- C8: when no audio context exists or the frequency array is empty,
`analyzeFrequency` skips the tick, fires nothing and leaves the whole
engine state (raw and smoothed band energies included) exactly unchanged. -/
theorem missing_input_coasting (now : ℤ) (st : AudioState)
    (h : st.audioContext = none ∨ st.frequencyArray = []) :
    analyzeFrequency now st = (st, none) := by
  rcases h with h | h
  · simp [analyzeFrequency, h]
  · cases hc : st.audioContext with
    | none => simp [analyzeFrequency, hc]
    | some sr => simp [analyzeFrequency, hc, h]

/-- Witness for C8: the freshly constructed engine state has no audio
context, and a tick leaves it untouched. -/
theorem missing_input_coasting_witness :
    analyzeFrequency 0 initialAudioState = (initialAudioState, none) :=
  missing_input_coasting 0 initialAudioState (Or.inl rfl)

/-- C4 is false as stated: `AdvancedAudioManager.onBeat` appends to
`beatCallbacks` instead of replacing, so registering two beat callbacks
leaves both registered. -/
theorem onBeat_counterexample :
    onBeat 2 (onBeat 1 []) = [1, 2] ∧ ¬ (onBeat 2 (onBeat 1 [])).length ≤ 1 := by
  decide

/-- C4 amended: each gesture callback slot registration overwrites the slot
(so at most one gesture listener per slot, and re-registration discards the
previous callback entirely), but `onBeat` appends to the beat-callback
list, so the audio engine accumulates every registered beat listener. -/
theorem callback_registration_semantics :
    (∀ (c : GestureCallbacks) (cb : ℕ),
      (registerOnPinch cb c).onPinch = some cb ∧
      (registerOnSwipe cb c).onSwipe = some cb ∧
      (registerOnBodyLeanSlot cb c).onBodyLeanSlot = some cb ∧
      (registerOnReset cb c).onReset = some cb ∧
      (registerOnFollow cb c).onFollow = some cb) ∧
    (∀ (c : GestureCallbacks) (cb1 cb2 : ℕ),
      registerOnPinch cb2 (registerOnPinch cb1 c) = registerOnPinch cb2 c ∧
      registerOnSwipe cb2 (registerOnSwipe cb1 c) = registerOnSwipe cb2 c ∧
      registerOnBodyLeanSlot cb2 (registerOnBodyLeanSlot cb1 c) = registerOnBodyLeanSlot cb2 c ∧
      registerOnReset cb2 (registerOnReset cb1 c) = registerOnReset cb2 c ∧
      registerOnFollow cb2 (registerOnFollow cb1 c) = registerOnFollow cb2 c) ∧
    (∀ (l : List ℕ) (cb : ℕ), onBeat cb l = l ++ [cb] ∧
      (onBeat cb l).length = l.length + 1) :=
  ⟨fun _ _ => ⟨rfl, rfl, rfl, rfl, rfl⟩,
   fun _ _ _ => ⟨rfl, rfl, rfl, rfl, rfl⟩,
   fun l _ => ⟨rfl, by simp [onBeat]⟩⟩

lemma normalizeValue_nonneg (v : ℚ) : 0 ≤ normalizeValue v := le_max_left 0 _

lemma normalizeValue_le_one (v : ℚ) : normalizeValue v ≤ 1 :=
  max_le (by norm_num) (min_le_left 1 _)

lemma analyzeFrequency_frequencyData (now : ℤ) (st : AudioState) (sr : ℚ)
    (hctx : st.audioContext = some sr) (harr : st.frequencyArray ≠ []) :
    (analyzeFrequency now st).1.frequencyData =
      { bass := normalizeValue (calculateRangeAverage st.frequencyArray
          (freqToBin st.bassRange.lo (sr / 2) st.frequencyArray.length)
          (freqToBin st.bassRange.hi (sr / 2) st.frequencyArray.length)) * st.sensitivity
        mid := normalizeValue (calculateRangeAverage st.frequencyArray
          (freqToBin st.midRange.lo (sr / 2) st.frequencyArray.length)
          (freqToBin st.midRange.hi (sr / 2) st.frequencyArray.length)) * st.sensitivity
        treble := normalizeValue (calculateRangeAverage st.frequencyArray
          (freqToBin st.trebleRange.lo (sr / 2) st.frequencyArray.length)
          (freqToBin st.trebleRange.hi (sr / 2) st.frequencyArray.length)) * st.sensitivity
        overall := normalizeValue (calculateRangeAverage st.frequencyArray 0
          (st.frequencyArray.length - 1)) * st.sensitivity } := by
  simp only [analyzeFrequency, hctx]
  rw [if_neg (by simpa using harr)]

/-- C1 is false as stated: the source clamps before applying the
sensitivity factor (`normalizeValue(avg) * this.sensitivity`), so with
`setSensitivity(2)` and an all-255 frame the raw bass energy is `2 > 1`,
not clamped to `[0, 1]`. -/
theorem band_energy_counterexample :
    1 < (analyzeFrequency 1000 loudAudioState).1.frequencyData.bass := by
  norm_num [analyzeFrequency, loudAudioState, initialAudioState, setSensitivity,
    freqToBin, calculateRangeAverage, rangeLoop, rangeLoopAux, normalizeValue]

/-- C1 amended: each raw band energy equals the arithmetic mean of the
magnitudes in the band's bin range divided by 255 and clamped to `[0, 1]`,
and only then multiplied by the sensitivity factor; hence each raw band
energy lies in `[0, sensitivity]`, and lies in `[0, 1]` whenever the
sensitivity is at most 1 (e.g. the default 1.0), but not in general. -/
theorem band_energy_amended (now : ℤ) (st : AudioState) (sr : ℚ)
    (hctx : st.audioContext = some sr) (harr : st.frequencyArray ≠ [])
    (hsens : 0 ≤ st.sensitivity) :
    ((analyzeFrequency now st).1.frequencyData.bass =
        normalizeValue (rangeMean st.frequencyArray
          (freqToBin st.bassRange.lo (sr / 2) st.frequencyArray.length)
          (freqToBin st.bassRange.hi (sr / 2) st.frequencyArray.length)) * st.sensitivity ∧
      (analyzeFrequency now st).1.frequencyData.mid =
        normalizeValue (rangeMean st.frequencyArray
          (freqToBin st.midRange.lo (sr / 2) st.frequencyArray.length)
          (freqToBin st.midRange.hi (sr / 2) st.frequencyArray.length)) * st.sensitivity ∧
      (analyzeFrequency now st).1.frequencyData.treble =
        normalizeValue (rangeMean st.frequencyArray
          (freqToBin st.trebleRange.lo (sr / 2) st.frequencyArray.length)
          (freqToBin st.trebleRange.hi (sr / 2) st.frequencyArray.length)) * st.sensitivity ∧
      (analyzeFrequency now st).1.frequencyData.overall =
        normalizeValue (rangeMean st.frequencyArray 0
          (st.frequencyArray.length - 1)) * st.sensitivity) ∧
    ((0 ≤ (analyzeFrequency now st).1.frequencyData.bass ∧
        (analyzeFrequency now st).1.frequencyData.bass ≤ st.sensitivity) ∧
      (0 ≤ (analyzeFrequency now st).1.frequencyData.mid ∧
        (analyzeFrequency now st).1.frequencyData.mid ≤ st.sensitivity) ∧
      (0 ≤ (analyzeFrequency now st).1.frequencyData.treble ∧
        (analyzeFrequency now st).1.frequencyData.treble ≤ st.sensitivity) ∧
      (0 ≤ (analyzeFrequency now st).1.frequencyData.overall ∧
        (analyzeFrequency now st).1.frequencyData.overall ≤ st.sensitivity)) ∧
    (st.sensitivity ≤ 1 →
      (analyzeFrequency now st).1.frequencyData.bass ≤ 1 ∧
      (analyzeFrequency now st).1.frequencyData.mid ≤ 1 ∧
      (analyzeFrequency now st).1.frequencyData.treble ≤ 1 ∧
      (analyzeFrequency now st).1.frequencyData.overall ≤ 1) := by
  have hfd := analyzeFrequency_frequencyData now st sr hctx harr
  rw [hfd]
  have hb : ∀ v : ℚ, 0 ≤ normalizeValue v * st.sensitivity ∧
      normalizeValue v * st.sensitivity ≤ st.sensitivity := by
    intro v
    constructor
    · exact mul_nonneg (normalizeValue_nonneg v) hsens
    · nlinarith [normalizeValue_nonneg v, normalizeValue_le_one v]
  have h1 : ∀ v : ℚ, st.sensitivity ≤ 1 → normalizeValue v * st.sensitivity ≤ 1 := by
    intro v h
    nlinarith [normalizeValue_nonneg v, normalizeValue_le_one v]
  refine ⟨⟨?_, ?_, ?_, ?_⟩, ⟨hb _, hb _, hb _, hb _⟩,
    fun h => ⟨h1 _ h, h1 _ h, h1 _ h, h1 _ h⟩⟩ <;>
  · dsimp only
    rw [calculateRangeAverage_eq_rangeMean]

/-- Witness for C1 (amended): the loud all-255 state with sensitivity 2 has
its raw bass energy within `[0, sensitivity]`. -/
theorem band_energy_amended_witness :
    0 ≤ (analyzeFrequency 1000 loudAudioState).1.frequencyData.bass ∧
    (analyzeFrequency 1000 loudAudioState).1.frequencyData.bass ≤
      loudAudioState.sensitivity :=
  (band_energy_amended 1000 loudAudioState 44100 rfl (by decide)
    (by norm_num [loudAudioState, initialAudioState, setSensitivity])).2.1.1

lemma swipe_dirs_exclusive (dx dy : ℚ) (h1 : |dx| > |dy| * (3/2)) :
    ¬ |dy| > |dx| * (3/2) := by
  intro h2
  nlinarith [abs_nonneg dx, abs_nonneg dy]

/-- C2 is false as stated for the near-duplicate `detectSwipe` in
`src/src/js/managers/GestureManager.js`: that variant has no 1.5
axis-dominance factor and no "none" case above the velocity threshold, so
the displacement `(Δx, Δy) = (0.10, 0.08)` (ratio 1.25) fires a swipe and
classifies it as "right" instead of firing nothing. -/
theorem swipe_axis_counterexample :
    (detectSwipeSimple (some ⟨0, 0⟩) ⟨1/10, 2/25⟩).1.isSwipe = true ∧
    (detectSwipeSimple (some ⟨0, 0⟩) ⟨1/10, 2/25⟩).1.direction = SwipeDir.right := by
  have e1 : |(1 : ℚ)/10| = 1/10 := abs_of_nonneg (by norm_num)
  have e2 : |(2 : ℚ)/25| = 2/25 := abs_of_nonneg (by norm_num)
  norm_num [detectSwipeSimple, e1, e2]

/-- C2 amended: the 1.5 axis-dominance rule holds for the enhanced
gesture manager's `detectSwipe` (the variant the spec describes): above
the velocity threshold the direction is horizontal iff `|Δx| > |Δy|·1.5`,
vertical iff `|Δy| > |Δx|·1.5`, no swipe fires when neither holds, and on
the concrete displacements `(0.10, 0.08)` fires nothing while
`(0.10, 0.05)` classifies "right"; the duplicate manager in
`src/src/js/managers/GestureManager.js` instead uses plain `|Δx| > |Δy|`
dominance and fires on every above-threshold displacement. -/
theorem swipe_axis_dominance (threshold : ℚ) (lp cur : Point)
    (hv : (cur.x - lp.x) * (cur.x - lp.x) + (cur.y - lp.y) * (cur.y - lp.y) >
      threshold * threshold) :
    (((detectSwipe threshold (some lp) cur).1.direction = SwipeDir.left ∨
        (detectSwipe threshold (some lp) cur).1.direction = SwipeDir.right) ↔
      |cur.x - lp.x| > |cur.y - lp.y| * (3/2)) ∧
    (((detectSwipe threshold (some lp) cur).1.direction = SwipeDir.up ∨
        (detectSwipe threshold (some lp) cur).1.direction = SwipeDir.down) ↔
      |cur.y - lp.y| > |cur.x - lp.x| * (3/2)) ∧
    ((detectSwipe threshold (some lp) cur).1.isSwipe = false ↔
      (detectSwipe threshold (some lp) cur).1.direction = SwipeDir.nodir) ∧
    (detectSwipe (1/20) (some ⟨0, 0⟩) ⟨1/10, 2/25⟩).1.isSwipe = false ∧
    ((detectSwipe (1/20) (some ⟨0, 0⟩) ⟨1/10, 1/20⟩).1.isSwipe = true ∧
      (detectSwipe (1/20) (some ⟨0, 0⟩) ⟨1/10, 1/20⟩).1.direction = SwipeDir.right) := by
  have e1 : |(1 : ℚ)/10| = 1/10 := abs_of_nonneg (by norm_num)
  have e2 : |(2 : ℚ)/25| = 2/25 := abs_of_nonneg (by norm_num)
  have e3 : |(1 : ℚ)/20| = 1/20 := abs_of_nonneg (by norm_num)
  have hconc1 : (detectSwipe (1/20) (some ⟨0, 0⟩) ⟨1/10, 2/25⟩).1.isSwipe = false := by
    norm_num [detectSwipe, e1, e2]
  have hconc2 : (detectSwipe (1/20) (some ⟨0, 0⟩) ⟨1/10, 1/20⟩).1.isSwipe = true ∧
      (detectSwipe (1/20) (some ⟨0, 0⟩) ⟨1/10, 1/20⟩).1.direction = SwipeDir.right := by
    norm_num [detectSwipe, e1, e3]
    rw [if_neg (by simp)]
    exact ⟨rfl, rfl⟩
  refine ⟨?_, ?_, ?_, hconc1, hconc2⟩ <;>
  · simp only [detectSwipe]
    rw [if_pos hv]
    by_cases h1 : |cur.x - lp.x| > |cur.y - lp.y| * (3/2)
    · have hne := swipe_dirs_exclusive _ _ h1
      by_cases h2 : cur.x - lp.x > 0 <;>
        simp [h1, h2, hne]
    · by_cases h3 : |cur.y - lp.y| > |cur.x - lp.x| * (3/2)
      · by_cases h4 : cur.y - lp.y > 0 <;>
          simp [h1, h3, h4]
      · simp [h1, h3]

/-- Witness for C2 (amended): the displacement `(0.10, 0.05)` is above
threshold and classifies as a "right" swipe. -/
theorem swipe_axis_dominance_witness :
    (detectSwipe (1/20) (some ⟨0, 0⟩) ⟨1/10, 1/20⟩).1.isSwipe = true ∧
    (detectSwipe (1/20) (some ⟨0, 0⟩) ⟨1/10, 1/20⟩).1.direction = SwipeDir.right :=
  (swipe_axis_dominance (1/20) ⟨0, 0⟩ ⟨1/10, 1/20⟩ (by norm_num)).2.2.2.2

/-- C7: for the shared EMA update `smoothValue` with factor `α ∈ [0,1]`, for
every start value `s` and constant raw input `r`, after `N` ticks
`|smoothed_N − r| ≤ α^N · |smoothed_0 − r|`; the distance to `r` is monotone
nonincreasing, and the iterates never overshoot past `r` from either side. -/
theorem ema_convergence (α r s : ℚ) (h0 : 0 ≤ α) (h1 : α ≤ 1) :
    (∀ n : ℕ, |emaIter α r s n - r| ≤ α ^ n * |s - r|) ∧
    (∀ n : ℕ, |emaIter α r s (n + 1) - r| ≤ |emaIter α r s n - r|) ∧
    (s ≤ r → ∀ n : ℕ, emaIter α r s n ≤ r) ∧
    (r ≤ s → ∀ n : ℕ, r ≤ emaIter α r s n) := by
  refine ⟨fun n => le_of_eq (emaIter_abs_sub α r s h0 n), fun n => ?_,
    fun hs n => emaIter_le_of_le α r s h0 hs n,
    fun hs n => emaIter_ge_of_ge α r s h0 hs n⟩
  rw [emaIter_succ_sub, abs_mul, abs_of_nonneg h0]
  nlinarith [abs_nonneg (emaIter α r s n - r)]

/-- Witness for C7 at `α = 1/2`, `r = 1`, `s = 0`, `N = 2`. -/
theorem ema_convergence_witness :
    |emaIter (1/2) 1 0 2 - 1| ≤ (1/2 : ℚ) ^ 2 * |0 - 1| :=
  (ema_convergence (1/2) 1 0 (by norm_num) (by norm_num)).1 2

lemma detectOpenPalm_count (lm : Fin 21 → Point) :
    detectOpenPalm lm = true ↔
      4 ≤ (Finset.univ.filter (fun i : Fin 5 => palmTest lm i = true)).card := by
  have hrange : (List.finRange 5) = [0, 1, 2, 3, 4] := rfl
  have hfold : (List.finRange 5).foldl (fun acc i => if palmTest lm i then acc + 1 else acc) 0 =
      (Finset.univ.filter (fun i : Fin 5 => palmTest lm i = true)).card := by
    rw [hrange, Finset.card_filter, Fin.sum_univ_five]
    simp only [List.foldl]
    cases hp0 : palmTest lm 0 <;> cases hp1 : palmTest lm 1 <;> cases hp2 : palmTest lm 2 <;>
      cases hp3 : palmTest lm 3 <;> cases hp4 : palmTest lm 4 <;>
      simp [hp0, hp1, hp2, hp3, hp4]
  simp only [detectOpenPalm, hfold, ge_iff_le, decide_eq_true_eq]

/-- C9: `detectOpenPalm` reports an open palm exactly when at least 4 of
the 5 per-finger extension tests pass; on a tick with an `onReset`
callback registered, a frame with exactly 3 extended fingers fires no
reset while a frame with exactly 4 fires one, and without a registered
callback nothing fires. -/
theorem open_palm_threshold (lm : Fin 21 → Point) :
    (detectOpenPalm lm = true ↔
      4 ≤ (Finset.univ.filter (fun i : Fin 5 => palmTest lm i = true)).card) ∧
    ((Finset.univ.filter (fun i : Fin 5 => palmTest lm i = true)).card = 3 →
      firesReset true lm = false) ∧
    ((Finset.univ.filter (fun i : Fin 5 => palmTest lm i = true)).card = 4 →
      firesReset true lm = true) ∧
    firesReset false lm = false := by
  have hiff := detectOpenPalm_count lm
  refine ⟨hiff, fun h3 => ?_, fun h4 => ?_, rfl⟩
  · rw [firesReset, Bool.true_and]
    cases hdp : detectOpenPalm lm
    · rfl
    · have := hiff.mp hdp
      omega
  · rw [firesReset, Bool.true_and]
    exact hiff.mpr (by omega)

/-- Witness for C9 on concrete frames: three extended fingers fire no
reset; four do. -/
theorem open_palm_threshold_witness :
    firesReset true palmFrame3 = false ∧ firesReset true palmFrame4 = true := by
  have h3 : (Finset.univ.filter (fun i : Fin 5 => palmTest palmFrame3 i = true)).card = 3 := by
    rw [Finset.card_filter, Fin.sum_univ_five]
    norm_num +decide [palmTest, palmFrame3, fingerTips, fingerMCPs]
  have h4 : (Finset.univ.filter (fun i : Fin 5 => palmTest palmFrame4 i = true)).card = 4 := by
    rw [Finset.card_filter, Fin.sum_univ_five]
    norm_num +decide [palmTest, palmFrame4, fingerTips, fingerMCPs]
  exact ⟨(open_palm_threshold palmFrame3).2.1 h3,
    (open_palm_threshold palmFrame4).2.2.1 h4⟩

lemma runSwipeTicks_stuck (throws2 : Bool) (ticks : List (ℤ × Bool)) :
    ∀ st : SwipeDispatchState, st.isSwipeActive = true → st.pendingReset = none →
      (runSwipeTicks throws2 st ticks).2 = 0 := by
  induction ticks with
  | nil =>
    intro st _ _
    rfl
  | cons p rest ih =>
    intro st h1 h2
    obtain ⟨t, sd⟩ := p
    have hstep : swipeDispatchTick t throws2 sd st = (st, false, false) := by
      simp only [swipeDispatchTick, h2]
      rw [if_neg]
      intro hc
      rw [h1] at hc
      exact absurd hc.2.1 (by simp)
    rw [runSwipeTicks, hstep]
    simpa using ih st h1 h2

/-- C3 (code bug): the dispatch is not guarded.  From a fresh swipe state,
a tick that detects a swipe and whose registered `onSwipe` callback throws
leaves `isSwipeActive` latched `true` with no reset timeout scheduled and
lets the exception escape, after which no later tick can ever fire a swipe
again; a non-throwing callback at the same input schedules the 800 ms
reset.  Beat dispatch is equally unguarded: with callbacks
`[throwing, benign]`, `triggerBeatCallbacks` invokes only the first and
the exception escapes. -/
theorem swipe_callback_throw_corrupts :
    ((swipeDispatchTick 0 true true ⟨false, false, none⟩).1.isSwipeActive = true ∧
      (swipeDispatchTick 0 true true ⟨false, false, none⟩).1.pendingReset = none ∧
      (swipeDispatchTick 0 true true ⟨false, false, none⟩).2.2 = true) ∧
    (∀ (ticks : List (ℤ × Bool)) (throws2 : Bool),
      (runSwipeTicks throws2 (swipeDispatchTick 0 true true ⟨false, false, none⟩).1
        ticks).2 = 0) ∧
    (swipeDispatchTick 0 false true ⟨false, false, none⟩).1.pendingReset = some 800 ∧
    triggerBeatCallbacks [true, false] = (1, true) := by
  refine ⟨⟨rfl, rfl, rfl⟩, fun ticks throws2 => ?_, rfl, rfl⟩
  exact runSwipeTicks_stuck throws2 ticks _ rfl rfl

end Visualizer


